import Mathlib

/-
  Verification of the AgentVerse retrieval-and-response orchestration pipeline
  (src/src/agent_response.py, src/src/data_loader.py, src/src/embedding_index.py).

  Shallow embedding conventions:
  * Python strings are modelled as `List Char` (`Str`); `str.lower` / `str.strip`
    / `str.split` / substring tests are re-implemented below over ASCII text
    exactly as Python behaves on the ASCII queries the predicates use.
  * The regular expressions of the source are compiled by hand into the
    equivalent string functions (each is noted next to its pattern).
  * External capabilities (embedding, generation, similarity search, text
    splitting, SHA-1 hashing, `random.choice`) are black boxes per spec section 1;
    they enter as explicit parameters / environment fields.  Everything the
    repository's own code does with their results is modelled faithfully.
  * A Python function that can raise returns `Except Str _`; an uncaught
    exception is `.error`.
  * Non-structural scans (the `re.sub` loops) use explicit fuel initialised to
    the string length, so every definition evaluates by kernel reduction.
-/

set_option maxRecDepth 20000

namespace AgentVerse

/-- Python strings, modelled as character lists. -/
abbrev Str := List Char

/-- Python whitespace (`str.split`, `str.strip`, regex `\s`) on ASCII text. -/
def isWs (c : Char) : Bool :=
  c == ' ' || c == '\t' || c == '\n' || c == '\r' || c == '\x0b' || c == '\x0c'

/-- `str.lower()` (ASCII range, which is all the source's lexicons use). -/
def lowerStr (s : Str) : Str := s.map Char.toLower

/-- Trailing-whitespace removal (the right half of `str.strip()`). -/
def dropTrail : Str → Str
  | [] => []
  | c :: rest =>
    let r := dropTrail rest
    if r.isEmpty && isWs c then [] else c :: r

/-- `str.strip()`. -/
def stripStr (s : Str) : Str := dropTrail (s.dropWhile (fun c => isWs c))

/-- Does `hay` start with `needle`?  (regex `^pat`, `str.startswith`). -/
def startsL : Str → Str → Bool
  | [], _ => true
  | _ :: _, [] => false
  | a :: as, b :: bs => a == b && startsL as bs

/-- Does `hay` end with `needle`?  (regex `pat$` on newline-free text). -/
def endsL (needle hay : Str) : Bool := startsL needle.reverse hay.reverse

/-- Python's `needle in hay` substring test (unanchored `re.search`). -/
def containsSub (needle : Str) : Str → Bool
  | [] => startsL needle []
  | c :: rest => startsL needle (c :: rest) || containsSub needle rest

/-- Accumulator for `tokensGo`: the current in-progress word, reversed. -/
def tokensGo : Str → Str → List Str
  | [], cur => if cur.isEmpty then [] else [cur.reverse]
  | c :: rest, cur =>
    if isWs c then
      if cur.isEmpty then tokensGo rest [] else cur.reverse :: tokensGo rest []
    else
      tokensGo rest (c :: cur)

/-- Python `str.split()` with no argument: maximal non-whitespace runs. -/
def tokens (s : Str) : List Str := tokensGo s []

/-! ## Dialogue-router lexicons and predicates (src/src/agent_response.py) -/

/-- `AGENT_NAME` (env default `"Agenverse"`). -/
def AGENT_NAME : Str := "Agenverse".toList

/-- `_is_name_query` (agent_response.py lines 57-60). -/
def is_name_query (query : Str) : Bool :=
  let q := stripStr (lowerStr query)
  containsSub ("your name").toList q ||
  containsSub ("who are you").toList q ||
  containsSub ("what are you").toList q ||
  containsSub ("what's your name").toList q ||
  containsSub ("who is this").toList q ||
  containsSub ("who am i chatting with").toList q ||
  containsSub ("agent name").toList q

/-- `PERSONAL_EMOTION_WORDS` (agent_response.py lines 62-64). -/
def PERSONAL_EMOTION_WORDS : List Str :=
  [("sad").toList, ("upset").toList, ("down").toList, ("depressed").toList,
   ("happy").toList, ("angry").toList, ("anxious").toList, ("stressed").toList,
   ("tired").toList, ("lonely").toList, ("excited").toList, ("frustrated").toList,
   ("worried").toList, ("confused").toList]

/-- `_is_personal` (agent_response.py lines 66-75): first-person pronoun
co-occurring with an emotion word, or an exact "i am (emotion)" statement. -/
def is_personal (query : Str) : Bool :=
  let q := stripStr (lowerStr query)
  (( containsSub ("i am ").toList q || containsSub ("i'm ").toList q ||
     containsSub ("i feel").toList q || containsSub ("feeling ").toList q) &&
    PERSONAL_EMOTION_WORDS.any (fun w => containsSub w q)) ||
  PERSONAL_EMOTION_WORDS.any (fun w => q == ("i am ").toList ++ w)

/-- `_is_small_talk` (agent_response.py lines 77-85).  The twelve
`SMALL_TALK_PATTERNS` regexes are compiled by position: `^hi$` and `^yo$` are
whole-string equality, `^hi there` and `^hello` are anchored prefixes, `help$`
is an anchored suffix, `thank(s| you)` and `good (morning|afternoon|evening)`
expand to their alternatives, and the rest are plain unanchored substrings.
The final clause is the short-query fallback (at most 3 tokens, none longer
than 7 characters). -/
def is_small_talk (query : Str) : Bool :=
  let q := stripStr (lowerStr query)
  q == ("hi").toList ||
  startsL ("hi there").toList q ||
  startsL ("hello").toList q ||
  containsSub ("hey").toList q ||
  containsSub ("how are you").toList q ||
  containsSub ("thanks").toList q || containsSub ("thank you").toList q ||
  containsSub ("good morning").toList q || containsSub ("good afternoon").toList q ||
  containsSub ("good evening").toList q ||
  containsSub ("what's up").toList q ||
  containsSub ("how's it going").toList q ||
  containsSub ("who are you").toList q ||
  endsL ("help").toList q ||
  q == ("yo").toList ||
  (decide ((tokens q).length ≤ 3) && (tokens q).all (fun w => decide (w.length ≤ 7)))

/-- `OUT_OF_SCOPE_KEYWORDS` (agent_response.py line 53). -/
def OUT_OF_SCOPE_KEYWORDS : List Str :=
  [("weather").toList, ("movie").toList, ("music").toList, ("recipe").toList,
   ("game").toList, ("restaurant").toList, ("travel plan").toList]

/-- `_is_out_of_scope` (agent_response.py lines 87-89); note the query is
lowered but not stripped there. -/
def is_out_of_scope (query : Str) : Bool :=
  let q := lowerStr query
  OUT_OF_SCOPE_KEYWORDS.any (fun k => containsSub k q)

/-! ## Response templates and `_general_response` (agent_response.py lines 46-116) -/

/-- `GENERAL_RESPONSE_TEMPLATES` (agent_response.py lines 46-51). -/
def GENERAL_RESPONSE_TEMPLATES : List Str :=
  [("Hi there! I'm Agenverse. How can I help with an underwriting or coverage question today?").toList,
   ("Hello! I'm Agenverse, here to help. Let me know any risk details or policy points you're exploring.").toList,
   ("I'm Agenverse. I can assist with underwriting decisions, coverage clarifications, or policy wording questions—what would you like to dive into?").toList,
   ("Thanks for reaching out—Agenverse at your service. Share the business type, key exposures, or your specific question and I'll help.").toList]

/-- The fixed self-identification template of `_general_response`
(agent_response.py line 108). -/
def name_query_reply : Str :=
  ("Answer: I'm Agenverse, your commercial SME underwriting assistant.\nDecision: Need Clarification\nExplanation: Share the risk type, key exposures, or coverage question so I can help further.").toList

/-- The two empathetic replies of the personal branch (agent_response.py line 111). -/
def personal_reply_short : Str :=
  ("I'm here to help. If you have any underwriting or coverage questions, feel free to share them when you're ready.").toList

def personal_reply_long : Str :=
  ("I hear you. Let me know any insurance or coverage concerns and I'll support you—no rush.").toList

/-- The sentence appended for out-of-scope queries (agent_response.py line 115). -/
def out_of_scope_steer : Str :=
  (" It seems your last question isn't underwriting related, but feel free to ask anything about coverage, appetite, pricing or broker interactions.").toList

/-- `_general_response` (agent_response.py lines 103-116).  `random.choice` is a
black-box capability; `choice` is the index it picks (reduced mod the template
count).  The `history` argument is accepted and ignored, as in the source. -/
def general_response (query : Str) (history : List (Str × Str)) (choice : Nat) : Str :=
  let _ := history
  let base := GENERAL_RESPONSE_TEMPLATES.getD (choice % GENERAL_RESPONSE_TEMPLATES.length) []
  if is_name_query query then
    name_query_reply
  else if is_personal query then
    (if (tokens query).length ≤ 6 then personal_reply_short else personal_reply_long)
  else if is_small_talk query then base
  else if is_out_of_scope query then base ++ out_of_scope_steer
  else base

/-! ## `_normalize_section_formatting` (agent_response.py lines 118-131)

Two `re.sub(rf"\s*{label}", f"\n{label}", text)` passes (label = `Decision:`
then `Explanation:`), one `re.sub(r"(Answer:|Decision:|Explanation:)\s+", r"\1 ", text)`
pass, then `text.strip()`.  Each pass is a left-to-right scan over
non-overlapping matches, exactly as Python's `re.sub`; since each label starts
with a non-whitespace character, `\s*` before a label always matches the
maximal whitespace run ending where the label starts. -/

def AnswerLbl : Str := ("Answer:").toList
def DecisionLbl : Str := ("Decision:").toList
def ExplanationLbl : Str := ("Explanation:").toList

/-- Length of the maximal leading whitespace run. -/
def wsRunLen : Str → Nat
  | [] => 0
  | c :: rest => if isWs c then wsRunLen rest + 1 else 0

/-- One `re.sub(rf"\s*{lbl}", f"\n{lbl}", ·)` pass; fuel starts at the string
length (each step consumes at least one character and one unit of fuel). -/
def subLabelGo (lbl : Str) : Nat → Str → Str
  | 0, cs => cs
  | _ + 1, [] => []
  | f + 1, c :: rest =>
    let cs := c :: rest
    let w := wsRunLen cs
    if startsL lbl (cs.drop w) then
      '\n' :: (lbl ++ subLabelGo lbl f (cs.drop (w + lbl.length)))
    else
      c :: subLabelGo lbl f rest

def subLabel (lbl : Str) (s : Str) : Str := subLabelGo lbl s.length s

/-- Which of the three labels (tried in the alternation's order) matches at the
head of `s`. -/
def matchLbl (s : Str) : Option Str :=
  if startsL AnswerLbl s then some AnswerLbl
  else if startsL DecisionLbl s then some DecisionLbl
  else if startsL ExplanationLbl s then some ExplanationLbl
  else none

/-- The `re.sub(r"(Answer:|Decision:|Explanation:)\s+", r"\1 ", ·)` pass. -/
def collapseGo : Nat → Str → Str
  | 0, cs => cs
  | _ + 1, [] => []
  | f + 1, c :: rest =>
    let cs := c :: rest
    match matchLbl cs with
    | some lbl =>
      let rem := cs.drop lbl.length
      let w := wsRunLen rem
      if 0 < w then lbl ++ ' ' :: collapseGo f (rem.drop w)
      else c :: collapseGo f rest
    | none => c :: collapseGo f rest

def collapseAfterLabels (s : Str) : Str := collapseGo s.length s

/-- `_normalize_section_formatting` (agent_response.py lines 118-131). -/
def normalize_section_formatting (s : Str) : Str :=
  stripStr (collapseAfterLabels (subLabel ExplanationLbl (subLabel DecisionLbl s)))

/-! ## `chat_with_agent` (agent_response.py lines 133-203)

The rate-limit sleep (lines 134-138) only spends wall-clock time and the debug
prints only write to stdout; neither affects the returned value, so they are
not modelled.  The external collaborators are collected in `ChatEnv`:

* `keyOk`: whether `load_chat_data` / `load_policy_docs` /
  `build_or_load_index` (lines 145-153) succeed; when the embedding credential
  is missing `build_or_load_index` raises and the exception propagates out of
  `chat_with_agent` uncaught.
* `scored`: the result of `index.similarity_search_with_score(query, k=4)`
  (line 162), or `none` when that call raises and the code falls back to
  `retriever.get_relevant_documents(query)` (lines 166-170), whose result is
  `fallbackDocs` (with `scores = []`).
* `gen`: the result of `llm.call_as_llm(prompt)` (line 193), `.error e` when it
  raises with message `e`.
* `choice`: the `random.choice` pick used by `_general_response`.
-/

/-- The `Document` record of langchain, as the pipeline uses it. -/
structure Document where
  page_content : Str
  metadata : List (Str × Str)
deriving DecidableEq, Repr

structure ChatEnv where
  keyOk : Bool
  scored : Option (List (Document × Rat))
  fallbackDocs : List Document
  gen : Except Str Str
  choice : Nat

/-- What `chat_with_agent` produced: the reply plus how many similarity-search
requests and generation calls were issued. -/
structure ChatOut where
  response : Str
  retrievalCalls : Nat
  generationCalls : Nat
deriving DecidableEq, Repr

/-- The documents retrieval yields (scored search, or the unscored fallback). -/
def retrievedDocs (env : ChatEnv) : List Document :=
  match env.scored with
  | some l => l.map Prod.fst
  | none => env.fallbackDocs

/-- The scores retrieval yields (empty when the scored search raised). -/
def retrievedScores (env : ChatEnv) : List Rat :=
  match env.scored with
  | some l => l.map Prod.snd
  | none => []

/-- The weak-retrieval heuristic (agent_response.py lines 171-179): weak when
no documents came back, else when scores exist and their mean exceeds 1.5. -/
def weak_context (docs : List Document) (scores : List Rat) : Bool :=
  if docs.isEmpty then true
  else if !scores.isEmpty then decide (scores.sum / (scores.length : Rat) > 1.5)
  else false

/-- The note appended when the generation call raises (agent_response.py line 195). -/
def errNote (e : Str) : Str :=
  (" (Encountered an error reaching model: ").toList ++ e ++ (")").toList

/-- The default block appended when the model forgot the `Decision:` section
(agent_response.py line 200). -/
def decisionPatch : Str :=
  ("\nDecision: Need Clarification\nExplanation: I didn't receive enough structured info; please provide key risk details (trade, sums insured, claims history).").toList

/-- The missing-`Decision:` patch step (agent_response.py lines 198-200). -/
def applyDecisionPatch (query : Str) (response : Str) : Str :=
  if !containsSub DecisionLbl response && !is_small_talk query &&
     !is_out_of_scope query && !is_personal query then
    response ++ decisionPatch
  else response

/-- The message of the `RuntimeError` raised by `_get_api_key`
(embedding_index.py lines 84-86). -/
def keyMissingMsg : Str :=
  ("OPENAI_API_KEY not set. Add it as an env var or Streamlit secret (OPENAI_API_KEY).").toList

/-- `chat_with_agent` (agent_response.py lines 133-203). -/
def chat_with_agent (query : Str) (history : List (Str × Str)) (env : ChatEnv) :
    Except Str ChatOut :=
  -- Early small-talk / personal short-circuit (line 142)
  if (is_small_talk query && decide ((tokens query).length < 10)) || is_personal query then
    .ok ⟨general_response query history env.choice, 0, 0⟩
  else if !env.keyOk then
    -- build_or_load_index raised (missing credential); propagates uncaught
    .error keyMissingMsg
  else
    let docs := retrievedDocs env
    let scores := retrievedScores env
    let weak := weak_context docs scores
    -- Out-of-scope fallback if retrieval weak and query looks unrelated (line 185)
    if weak && (is_out_of_scope query || decide ((tokens query).length < 4)) then
      .ok ⟨general_response query history env.choice, 1, 0⟩
    else
      let response :=
        match env.gen with
        | .ok g => g
        | .error e => general_response query history env.choice ++ errNote e
      .ok ⟨normalize_section_formatting (applyDecisionPatch query response), 1, 1⟩

/-- The short-circuit condition of agent_response.py line 142, as one Bool. -/
def shortCircuitCond (q : Str) : Bool :=
  (is_small_talk q && decide ((tokens q).length < 10)) || is_personal q

/-- The weak-retrieval exit condition of agent_response.py line 185, as one Bool. -/
def weakExitCond (q : Str) (env : ChatEnv) : Bool :=
  weak_context (retrievedDocs env) (retrievedScores env) &&
    (is_out_of_scope q || decide ((tokens q).length < 4))

/-- The response text the generation step hands to post-processing. -/
def genRawResponse (q : Str) (hist : List (Str × Str)) (env : ChatEnv) : Str :=
  match env.gen with
  | .ok g => g
  | .error e => general_response q hist env.choice ++ errNote e

/-! ## Index builder/loader (src/src/embedding_index.py, lines 58-152)

`build_or_load_index` is driven by module state (`_vectorstore`), environment
configuration, the filesystem, and backend calls that may raise.  `IdxEnv`
carries those externals; the in-process cache (`_vectorstore`) is passed and
returned explicitly.  `BuildOut.embedded` records whether the embedding
capability was invoked on documents (`Chroma.from_documents` /
`FAISS.from_documents`); `BuildOut.diskRead` records whether persisted index
state was read (the `Chroma(persist_directory=...)` load attempt).
Constructing the `OpenAIEmbeddings` wrapper (line 100) performs no embedding
and reads no persisted state. -/

/-- How the returned vectorstore was obtained, with the documents a freshly
built index embeds. -/
inductive Index where
  | chromaLoaded : Index
  | chromaCreated : List Document → Index
  | faissCreated : List Document → Index
deriving DecidableEq, Repr

structure IdxEnv where
  /-- `os.getenv("OPENAI_API_KEY")` -/
  envKey : Option Str
  /-- `st.secrets["OPENAI_API_KEY"]` when the Streamlit-secrets lookup
  succeeds and holds the key (`_get_api_key`, lines 76-82) -/
  secretsKey : Option Str
  /-- `os.getenv("USE_FAISS_FALLBACK", "0") == "1"` -/
  preferFaissFlag : Bool
  /-- `os.path.exists(VECTOR_DB_PATH) and os.listdir(VECTOR_DB_PATH)`:
  a persisted Chroma index at `chroma_db` -/
  chromaPersisted : Bool
  /-- whether the `Chroma(persist_directory=...)` load succeeds (line 112) -/
  chromaLoadOk : Bool
  /-- whether `Chroma.from_documents` + `persist` succeed (lines 132-135) -/
  chromaCreateOk : Bool
  /-- a persisted FAISS index at `vector_db` (`FAISS_DB_PATH`), left by an
  earlier fallback run's `save_local` (line 147) -/
  faissPersisted : Bool

structure BuildOut where
  result : Except Str Index
  /-- the module-level `_vectorstore` after the call -/
  cache : Option Index
  embedded : Bool
  diskRead : Bool
deriving Repr

/-- The message of the `IndexError` raised by `chat_data_chunks[0]` on an empty
list (embedding_index.py line 120). -/
def indexErrorMsg : Str := ("list index out of range").toList

/-- `_get_api_key` (embedding_index.py lines 71-87): the environment variable,
else the Streamlit secret, else a `RuntimeError`. -/
def get_api_key (env : IdxEnv) : Except Str Str :=
  match env.envKey with
  | some k => .ok k
  | none =>
    match env.secretsKey with
    | some k => .ok k
    | none => .error keyMissingMsg

/-- `build_or_load_index` (embedding_index.py lines 89-152). -/
def build_or_load_index (env : IdxEnv) (vectorstore : Option Index)
    (chat_data_chunks policy_docs : List Document) : BuildOut :=
  -- If the vectorstore is already loaded in memory, return it (lines 93-95)
  match vectorstore with
  | some vs => ⟨.ok vs, some vs, false, false⟩
  | none =>
    match get_api_key env with
    | .error m => ⟨.error m, none, false, false⟩
    | .ok _ =>
      let preferFaiss := env.preferFaissFlag
      -- Attempt Chroma load unless FAISS forced (lines 108-117); a load
      -- failure is caught and flips prefer_faiss
      let loadAttempted := !preferFaiss && env.chromaPersisted
      if loadAttempted && env.chromaLoadOk then
        ⟨.ok .chromaLoaded, some .chromaLoaded, false, true⟩
      else
        let preferFaiss := preferFaiss || (loadAttempted && !env.chromaLoadOk)
        -- `chat_data_chunks[0]` (line 120) raises IndexError on an empty list,
        -- outside any try block
        if chat_data_chunks.isEmpty then
          ⟨.error indexErrorMsg, none, false, loadAttempted⟩
        else
          -- chunks are already Document objects, so no wrapping (lines 120-122)
          let all_docs := chat_data_chunks ++ policy_docs
          -- Chroma creation attempt (lines 130-139); failure is caught and
          -- flips prefer_faiss
          if !preferFaiss && env.chromaCreateOk then
            ⟨.ok (.chromaCreated all_docs), some (.chromaCreated all_docs),
             true, loadAttempted⟩
          else
            -- FAISS fallback (lines 141-152); save_local failures are swallowed
            ⟨.ok (.faissCreated all_docs), some (.faissCreated all_docs),
             true, loadAttempted⟩

/-! ## Data loader (src/src/data_loader.py)

`RecursiveCharacterTextSplitter.split_text` is an external langchain capability
(spec section 1 treats chunk splitting's internals as out of core scope beyond the
size filter); it enters as the `split` parameter.  `hashlib.sha1(...).hexdigest()`
is likewise a black-box digest, the `hash` parameter; every property proved
below holds for an arbitrary digest function.  File/Excel IO supplies the raw
rows and files, the `rows` / `files` parameters. -/

/-- Size-reduction configuration defaults (data_loader.py lines 11-13); the
environment overrides are configuration, fixed here at their defaults. -/
def CHUNK_SIZE : Nat := 1500
def CHUNK_OVERLAP : Nat := 50
def MIN_CHUNK_CHARS : Nat := 80

/-- Whitespace-run collapsing (`re.sub(r"\s+", " ", ·)`). -/
def collapseWs : Str → Str
  | [] => []
  | [c] => if isWs c then [' '] else [c]
  | c :: d :: rest =>
    if isWs c && isWs d then collapseWs (d :: rest)
    else (if isWs c then ' ' else c) :: collapseWs (d :: rest)

/-- `_normalize` (data_loader.py lines 15-16):
`re.sub(r"\s+", " ", text.strip().lower())`. -/
def normalizeText (text : Str) : Str := collapseWs (lowerStr (stripStr text))

/-- `dedupe_documents`'s loop (data_loader.py lines 23-31), with the `seen`
set of digests made explicit. -/
def dedupeGo (hash : Str → Str) : List Document → List Str → List Document
  | [], _ => []
  | d :: rest, seen =>
    let h := hash (normalizeText d.page_content)
    if h ∈ seen then dedupeGo hash rest seen
    else d :: dedupeGo hash rest (h :: seen)

/-- `dedupe_documents` (data_loader.py lines 21-32). -/
def dedupe_documents (hash : Str → Str) (documents : List Document) : List Document :=
  dedupeGo hash documents []

/-- `chunk_text` (data_loader.py lines 34-45): split, drop fragments shorter
than `MIN_CHUNK_CHARS`, wrap as `Document`s tagged with the source. -/
def chunk_text (split : Str → List Str) (text : Str) (source : Str) : List Document :=
  ((split text).filter (fun chunk => decide (MIN_CHUNK_CHARS ≤ chunk.length))).map
    (fun chunk => ⟨chunk, [(("source").toList, source)]⟩)

/-- `re.sub(r'<.*?>', '', ·)` helper: the distance to the first `>` reachable
without crossing a newline (`.` does not match a newline). -/
def findTagEnd : Str → Option Nat
  | [] => none
  | c :: rest =>
    if c == '>' then some 0
    else if c == '\n' then none
    else (findTagEnd rest).map (· + 1)

/-- `re.sub(r'<.*?>', '', ·)` (data_loader.py line 57): each `<` that has a
`>` later on its line opens a deleted tag; fuel starts at the string length. -/
def removeTagsGo : Nat → Str → Str
  | 0, s => s
  | _ + 1, [] => []
  | f + 1, c :: rest =>
    if c == '<' then
      match findTagEnd rest with
      | some i => removeTagsGo f (rest.drop (i + 1))
      | none => c :: removeTagsGo f rest
    else c :: removeTagsGo f rest

def removeTags (s : Str) : Str := removeTagsGo s.length s

/-- `re.match(r'\d{2}:\d{2}:\d{2} - (.*?) - (.*)', line)`, part one: the
anchored `\d{2}:\d{2}:\d{2} - ` prefix; returns the rest of the line. -/
def matchTimePrefix : Str → Option Str
  | d1 :: d2 :: c1 :: d3 :: d4 :: c2 :: d5 :: d6 :: rest =>
    if d1.isDigit && d2.isDigit && c1 == ':' && d3.isDigit && d4.isDigit &&
       c2 == ':' && d5.isDigit && d6.isDigit && startsL (" - ").toList rest then
      some (rest.drop 3)
    else none
  | _ => none

/-- Part two: `(.*?) - (.*)` splits at the first ` - ` (the non-greedy group);
fails when the line has no further ` - `. -/
def splitFirstDash : Str → Option (Str × Str)
  | [] => none
  | c :: rest =>
    if startsL (" - ").toList (c :: rest) then some ([], rest.drop 2)
    else (splitFirstDash rest).map (fun p => (c :: p.1, p.2))

/-- One line of a transcript rendered as `sender: message`, when the line
matches the timestamped-dialogue pattern and the sender is nonempty
(data_loader.py lines 61-66). -/
def parseLine (line : Str) : Option Str :=
  match matchTimePrefix line with
  | none => none
  | some rest =>
    match splitFirstDash rest with
    | none => none
    | some (sender, message) =>
      if (stripStr sender).isEmpty then none
      else some (stripStr sender ++ (": ").toList ++ stripStr message)

/-- One chat row of the Excel sheet: the `TRANSCRIPT` cell (`none` = NaN) and
the four metadata columns. -/
structure ChatRow where
  transcript : Option Str
  experience : Str
  initial_group : Str
  final_group : Str
  outcome : Str
deriving Repr

/-- The per-chunk metadata attachment (data_loader.py lines 69-82): only
non-empty values are stored. -/
def attachMeta (row : ChatRow) (d : Document) : Document :=
  let pairs := [(("experience").toList, row.experience),
                (("initial_group").toList, row.initial_group),
                (("final_group").toList, row.final_group),
                (("outcome").toList, row.outcome)]
  ⟨d.page_content, d.metadata ++ pairs.filter (fun p => !p.2.isEmpty)⟩

/-- The documents one chat row contributes (data_loader.py lines 52-83). -/
def chatRowDocs (split : Str → List Str) (row : ChatRow) : List Document :=
  match row.transcript with
  | none => []
  | some transcript =>
    let cleaned := removeTags transcript
    let lines := (stripStr cleaned).splitOn '\n'
    let messages := lines.filterMap parseLine
    let chat_text := (("\n").toList).intercalate messages
    (chunk_text split chat_text (("chat").toList)).map (attachMeta row)

/-- `load_chat_data` (data_loader.py lines 47-90): chunk every row, then
deduplicate the whole batch. -/
def load_chat_data (split : Str → List Str) (hash : Str → Str)
    (rows : List ChatRow) : List Document :=
  dedupe_documents hash (rows.flatMap (chatRowDocs split))

/-- `load_policy_docs` (data_loader.py lines 92-116): walk the folder (the
`files` list, in `os.walk` order, as `(filename, extracted text)`), chunk every
`.pdf` / `.docx` file's extracted text, skip other extensions, then
deduplicate the batch. -/
def load_policy_docs (split : Str → List Str) (hash : Str → Str)
    (files : List (Str × Str)) : List Document :=
  dedupe_documents hash
    (files.flatMap (fun f =>
      if endsL ((".pdf").toList) f.1 || endsL ((".docx").toList) f.1 then
        chunk_text split f.2 f.1
      else []))

/-! ## Basic lemmas about the string scanners -/

theorem startsL_append (s t : Str) : startsL s (s ++ t) = true := by
  induction s with
  | nil => rfl
  | cons a as ih => simp [startsL, ih]

theorem containsSub_of_startsL {n h : Str} (H : startsL n h = true) :
    containsSub n h = true := by
  cases h with
  | nil => simpa [containsSub] using H
  | cons c rest => simp [containsSub, H]

theorem containsSub_cons {n : Str} (c : Char) {t : Str}
    (H : containsSub n t = true) : containsSub n (c :: t) = true := by
  simp [containsSub, H]

theorem containsSub_append_left {n : Str} (pre : Str) {t : Str}
    (H : containsSub n t = true) : containsSub n (pre ++ t) = true := by
  induction pre with
  | nil => simpa using H
  | cons c cs ih => simpa using containsSub_cons c ih

/-- A needle starting with `c₀` matches nowhere inside a prefix that avoids
`c₀`, so that prefix can be stripped. -/
theorem containsSub_skip_block {c₀ : Char} {ntail : Str} (pre t : Str)
    (hpre : ∀ c ∈ pre, c₀ ≠ c) :
    containsSub (c₀ :: ntail) (pre ++ t) = containsSub (c₀ :: ntail) t := by
  induction pre with
  | nil => rfl
  | cons p ps ih =>
    have hne : (c₀ == p) = false := by
      simpa using hpre p (List.mem_cons_self p ps)
    have := ih (fun c hc => hpre c (List.mem_cons_of_mem p hc))
    simp [containsSub, startsL, hne, this]

theorem take_wsRun_ws : ∀ (t : Str), ∀ c ∈ t.take (wsRunLen t), isWs c = true := by
  intro t
  induction t with
  | nil => simp
  | cons c rest ih =>
    by_cases h : isWs c = true
    · simp only [wsRunLen, h, if_pos rfl, List.take_succ_cons]
      intro x hx
      rcases List.mem_cons.mp hx with rfl | hx
      · exact h
      · exact ih x hx
    · simp [wsRunLen, h]

theorem startsL_eq_append : ∀ {n h : Str}, startsL n h = true →
    h = n ++ h.drop n.length := by
  intro n
  induction n with
  | nil => intro h _; simp
  | cons a as ih =>
    intro h H
    cases h with
    | nil => simp [startsL] at H
    | cons b bs =>
      simp only [startsL, Bool.and_eq_true, beq_iff_eq] at H
      obtain ⟨rfl, H2⟩ := H
      simpa using ih H2

theorem wsRunLen_cons_of_not_ws {c : Char} (rest : Str) (h : isWs c = false) :
    wsRunLen (c :: rest) = 0 := by
  simp [wsRunLen, h]

/-! ## Branch-reduction lemmas for `chat_with_agent` -/

theorem chat_eq_short_circuit {q : Str} (hist : List (Str × Str)) (env : ChatEnv)
    (hsc : shortCircuitCond q = true) :
    chat_with_agent q hist env = .ok ⟨general_response q hist env.choice, 0, 0⟩ := by
  unfold chat_with_agent
  rw [show ((is_small_talk q && decide ((tokens q).length < 10)) || is_personal q) = true
      from hsc]
  simp

theorem chat_eq_key_error {q : Str} (hist : List (Str × Str)) {env : ChatEnv}
    (hsc : shortCircuitCond q = false) (hkey : env.keyOk = false) :
    chat_with_agent q hist env = .error keyMissingMsg := by
  unfold chat_with_agent
  rw [show ((is_small_talk q && decide ((tokens q).length < 10)) || is_personal q) = false
      from hsc, hkey]
  simp

theorem chat_eq_weak_exit {q : Str} (hist : List (Str × Str)) {env : ChatEnv}
    (hsc : shortCircuitCond q = false) (hkey : env.keyOk = true)
    (hweak : weakExitCond q env = true) :
    chat_with_agent q hist env = .ok ⟨general_response q hist env.choice, 1, 0⟩ := by
  unfold chat_with_agent
  rw [show ((is_small_talk q && decide ((tokens q).length < 10)) || is_personal q) = false
      from hsc, hkey]
  simp only [Bool.not_true, Bool.false_eq_true, if_false]
  rw [show (weak_context (retrievedDocs env) (retrievedScores env) &&
      (is_out_of_scope q || decide ((tokens q).length < 4))) = true from hweak]
  simp

theorem chat_eq_generation {q : Str} (hist : List (Str × Str)) {env : ChatEnv}
    (hsc : shortCircuitCond q = false) (hkey : env.keyOk = true)
    (hweak : weakExitCond q env = false) :
    chat_with_agent q hist env =
      .ok ⟨normalize_section_formatting (applyDecisionPatch q (genRawResponse q hist env)),
           1, 1⟩ := by
  unfold chat_with_agent
  rw [show ((is_small_talk q && decide ((tokens q).length < 10)) || is_personal q) = false
      from hsc, hkey]
  simp only [Bool.not_true, Bool.false_eq_true, if_false]
  rw [show (weak_context (retrievedDocs env) (retrievedScores env) &&
      (is_out_of_scope q || decide ((tokens q).length < 4))) = false from hweak]
  simp [genRawResponse]

/-! ## C1 / C2 / C10 — dialogue-router short-circuit behaviour -/

/-- C1: `chat_with_agent(q, history)` returns the canned `_general_response`
reply with zero retrieval calls and zero generation calls exactly when
(`_is_small_talk(q)` and `q` has fewer than 10 whitespace tokens) or
`_is_personal(q)`; in particular a small-talk-matching query with 10 or more
tokens is not short-circuited and proceeds to the retrieval path (one
similarity-search request is issued whenever the index build succeeded). -/
theorem router_short_circuit_iff (q : Str) (hist : List (Str × Str)) (env : ChatEnv) :
    ((∃ out, chat_with_agent q hist env = .ok out ∧ out.retrievalCalls = 0 ∧
        out.generationCalls = 0 ∧ out.response = general_response q hist env.choice) ↔
      ((is_small_talk q = true ∧ (tokens q).length < 10) ∨ is_personal q = true)) ∧
    (is_small_talk q = true → ¬ (tokens q).length < 10 → is_personal q = false →
      env.keyOk = true →
      ∃ out, chat_with_agent q hist env = .ok out ∧ out.retrievalCalls = 1) := by
  by_cases hsc : shortCircuitCond q = true
  · constructor
    · constructor
      · intro _
        simpa [shortCircuitCond, Bool.or_eq_true, Bool.and_eq_true,
          decide_eq_true_eq] using hsc
      · intro _
        exact ⟨_, chat_eq_short_circuit hist env hsc, rfl, rfl, rfl⟩
    · intro hst hlong hp _
      exfalso
      simp only [shortCircuitCond, Bool.or_eq_true, Bool.and_eq_true,
        decide_eq_true_eq, hp] at hsc
      rcases hsc with ⟨_, h10⟩ | h
      · exact hlong h10
      · exact absurd h (by simp)
  · have hsc' : shortCircuitCond q = false := by simpa using hsc
    constructor
    · constructor
      · rintro ⟨out, hout, hr, hg, _⟩
        exfalso
        by_cases hkey : env.keyOk = true
        · by_cases hweak : weakExitCond q env = true
          · rw [chat_eq_weak_exit hist hsc' hkey hweak] at hout
            cases hout
            simp at hr
          · have hweak' : weakExitCond q env = false := by simpa using hweak
            rw [chat_eq_generation hist hsc' hkey hweak'] at hout
            cases hout
            simp at hg
        · have hk : env.keyOk = false := by simpa using hkey
          rw [chat_eq_key_error hist hsc' hk] at hout
          cases hout
      · intro h
        exfalso
        simp only [shortCircuitCond, Bool.or_eq_true, Bool.and_eq_true,
          decide_eq_true_eq] at hsc
        rcases h with ⟨h1, h2⟩ | h1
        · exact hsc (Or.inl ⟨h1, h2⟩)
        · exact hsc (Or.inr h1)
    · intro _ _ _ hkey
      by_cases hweak : weakExitCond q env = true
      · exact ⟨_, chat_eq_weak_exit hist hsc' hkey hweak, rfl⟩
      · have hweak' : weakExitCond q env = false := by simpa using hweak
        exact ⟨_, chat_eq_generation hist hsc' hkey hweak', rfl⟩

/-- C1 witness: the query `"hi"` is short-circuited. -/
theorem router_short_circuit_iff_witness :
    ∃ out, chat_with_agent (("hi").toList) [] ⟨true, none, [], .ok [], 0⟩ = .ok out ∧
      out.retrievalCalls = 0 ∧ out.generationCalls = 0 ∧
      out.response = general_response (("hi").toList) [] 0 :=
  (router_short_circuit_iff (("hi").toList) [] ⟨true, none, [], .ok [], 0⟩).1.mpr
    (Or.inl (by constructor <;> decide))

/-- C2 counterexample: `"what about your name"` contains the identity trigger
`"your name"`, yet (being neither small talk nor personal) it is not
short-circuited: with a healthy index and retrieval returning a document (so
retrieval is not weak), one similarity-search request is issued and the reply
is the model's text, not the fixed self-identification template.  This refutes
"zero retrieval calls, regardless of the query's length" for every
identity-phrased query. -/
theorem name_query_not_always_template :
    is_name_query (("what about your name").toList) = true ∧
    chat_with_agent (("what about your name").toList) []
        ⟨true, none, [⟨("policy doc chunk").toList, []⟩],
         .ok (("Answer: x\nDecision: Refer\nExplanation: y").toList), 0⟩ =
      .ok ⟨("Answer: x\nDecision: Refer\nExplanation: y").toList, 1, 1⟩ ∧
    (("Answer: x\nDecision: Refer\nExplanation: y").toList ≠ name_query_reply) := by
  refine ⟨by decide, ?_, by decide⟩
  rw [chat_eq_generation [] (by decide) rfl (by decide)]
  exact congrArg Except.ok (by decide)

/-- C2 (amended): an identity-phrased query that is actually short-circuited
(small-talk classified with fewer than 10 tokens, or personal) is answered
with the fixed self-identification template and zero retrieval and generation
calls, regardless of retrieval state — `_general_response` tests
`_is_name_query` before every other branch. -/
theorem name_query_template_when_short_circuited (q : Str) (hist : List (Str × Str))
    (env : ChatEnv) (hname : is_name_query q = true)
    (hsc : (is_small_talk q = true ∧ (tokens q).length < 10) ∨ is_personal q = true) :
    chat_with_agent q hist env = .ok ⟨name_query_reply, 0, 0⟩ := by
  have hcond : shortCircuitCond q = true := by
    simp only [shortCircuitCond, Bool.or_eq_true, Bool.and_eq_true, decide_eq_true_eq]
    exact hsc
  rw [chat_eq_short_circuit hist env hcond]
  simp [general_response, hname]

/-- C2 witness: `"who are you"` is both an identity query and small talk. -/
theorem name_query_template_witness :
    chat_with_agent (("who are you").toList) [] ⟨true, none, [], .ok [], 0⟩ =
      .ok ⟨name_query_reply, 0, 0⟩ :=
  name_query_template_when_short_circuited (("who are you").toList) [] _
    (by decide) (Or.inl (by constructor <;> decide))

/-- C10 counterexample: `_is_small_talk` anchors the `hello` pattern
(`^hello`), so `"please say hello to the underwriting team"` — which contains
`"hello"` mid-string and has fewer than 10 tokens — is NOT classified small
talk and is NOT short-circuited: the retrieval path runs (one
similarity-search request). -/
theorem hello_substring_not_small_talk :
    containsSub (("hello").toList)
        (stripStr (lowerStr (("please say hello to the underwriting team").toList))) = true ∧
    (tokens (("please say hello to the underwriting team").toList)).length < 10 ∧
    is_small_talk (("please say hello to the underwriting team").toList) = false ∧
    chat_with_agent (("please say hello to the underwriting team").toList) []
        ⟨true, none, [⟨("policy doc chunk").toList, []⟩],
         .ok (("Answer: a\nDecision: Refer\nExplanation: r").toList), 0⟩ =
      .ok ⟨("Answer: a\nDecision: Refer\nExplanation: r").toList, 1, 1⟩ := by
  refine ⟨by decide, by decide, by decide, ?_⟩
  rw [chat_eq_generation [] (by decide) rfl (by decide)]
  exact congrArg Except.ok (by decide)

/-- C10 (amended): the unanchored small-talk patterns are `hey` and
`how are you` (substring anywhere of the lowercased stripped query), while
`hello` matches only as a prefix.  Any query matching one of these is
classified small talk; with fewer than 10 tokens it is short-circuited to the
canned reply with zero retrieval and generation calls, and on the generation
path (10 or more tokens) it is excluded from the missing-`Decision:` patch:
the model text is returned normalized but unpatched. -/
theorem small_talk_substring_amended (q : Str) (hist : List (Str × Str))
    (env : ChatEnv) (g : Str)
    (h : containsSub (("hey").toList) (stripStr (lowerStr q)) = true ∨
         containsSub (("how are you").toList) (stripStr (lowerStr q)) = true ∨
         startsL (("hello").toList) (stripStr (lowerStr q)) = true) :
    is_small_talk q = true ∧
    ((tokens q).length < 10 →
      chat_with_agent q hist env = .ok ⟨general_response q hist env.choice, 0, 0⟩) ∧
    (¬ (tokens q).length < 10 → is_personal q = false → env.keyOk = true →
      weakExitCond q env = false → env.gen = .ok g →
      chat_with_agent q hist env = .ok ⟨normalize_section_formatting g, 1, 1⟩) := by
  have hst : is_small_talk q = true := by
    unfold is_small_talk
    rcases h with h | h | h <;>
      simp only [h, Bool.or_true, Bool.true_or]
  refine ⟨hst, ?_, ?_⟩
  · intro h10
    have hcond : shortCircuitCond q = true := by
      simp [shortCircuitCond, hst, h10]
    exact chat_eq_short_circuit hist env hcond
  · intro h10 hp hkey hweak hgen
    have hcond : shortCircuitCond q = false := by
      simp [shortCircuitCond, hst, hp, h10]
    rw [chat_eq_generation hist hcond hkey hweak]
    simp [genRawResponse, hgen, applyDecisionPatch, hst]

/-- C10 witness: `"they want fire coverage for the warehouse this year"`
contains `hey` inside `they`, has 9 tokens, and is short-circuited. -/
theorem small_talk_substring_witness :
    is_small_talk (("they want fire coverage for the warehouse this year").toList) = true ∧
    chat_with_agent (("they want fire coverage for the warehouse this year").toList) []
        ⟨true, none, [], .ok [], 0⟩ =
      .ok ⟨general_response
            (("they want fire coverage for the warehouse this year").toList) [] 0, 0, 0⟩ := by
  have h := small_talk_substring_amended
    (("they want fire coverage for the warehouse this year").toList) []
    ⟨true, none, [], .ok [], 0⟩ [] (Or.inl (by decide))
  exact ⟨h.1, h.2.1 (by decide)⟩

/-! ## C6 — weak-retrieval out-of-scope exit, C8 — generation failure fallback -/

/-- C6: on the retrieval path (query not short-circuited, index build
succeeded), `chat_with_agent` returns the general/out-of-scope template with
zero generation calls precisely when retrieval is weak (no documents, or — when
scores came back — mean score strictly above 1.5) and the query contains an
out-of-scope keyword or has fewer than 4 whitespace tokens. -/
theorem weak_retrieval_exit_iff (q : Str) (hist : List (Str × Str)) (env : ChatEnv)
    (hsc : shortCircuitCond q = false) (hkey : env.keyOk = true) :
    (∃ out, chat_with_agent q hist env = .ok out ∧ out.generationCalls = 0 ∧
        out.response = general_response q hist env.choice) ↔
      (weak_context (retrievedDocs env) (retrievedScores env) = true ∧
        (is_out_of_scope q = true ∨ (tokens q).length < 4)) := by
  constructor
  · rintro ⟨out, hout, hg, _⟩
    by_cases hweak : weakExitCond q env = true
    · simpa [weakExitCond, Bool.and_eq_true, Bool.or_eq_true,
        decide_eq_true_eq] using hweak
    · have hweak' : weakExitCond q env = false := by simpa using hweak
      rw [chat_eq_generation hist hsc hkey hweak'] at hout
      cases hout
      simp at hg
  · intro h
    have hweak : weakExitCond q env = true := by
      simpa [weakExitCond, Bool.and_eq_true, Bool.or_eq_true,
        decide_eq_true_eq] using h
    exact ⟨_, chat_eq_weak_exit hist hsc hkey hweak, rfl, rfl⟩

/-- C6 witness: `"what is the weather in Paris tomorrow"` (out-of-scope
keyword, retrieval empty hence weak) takes the no-generation exit. -/
theorem weak_retrieval_exit_iff_witness :
    ∃ out, chat_with_agent (("what is the weather in Paris tomorrow").toList) []
        ⟨true, some [], [], .ok [], 0⟩ = .ok out ∧
      out.generationCalls = 0 ∧
      out.response = general_response (("what is the weather in Paris tomorrow").toList) [] 0 :=
  (weak_retrieval_exit_iff (("what is the weather in Paris tomorrow").toList) []
      ⟨true, some [], [], .ok [], 0⟩ (by decide) rfl).mpr
    ⟨by decide, Or.inl (by decide)⟩

/-- C8: when the generation call raises, `chat_with_agent` does not propagate
the exception: it returns normally, the reply being the general/templated
response with the error note appended (then run through the same
missing-`Decision:` patch and formatting normalization as any response). -/
theorem generation_failure_fallback (q : Str) (hist : List (Str × Str))
    (env : ChatEnv) (e : Str)
    (hsc : shortCircuitCond q = false) (hkey : env.keyOk = true)
    (hweak : weakExitCond q env = false) (hgen : env.gen = .error e) :
    chat_with_agent q hist env =
      .ok ⟨normalize_section_formatting (applyDecisionPatch q
            (general_response q hist env.choice ++ errNote e)), 1, 1⟩ := by
  rw [chat_eq_generation hist hsc hkey hweak]
  simp [genRawResponse, hgen]

/-- C8 witness: a substantive query whose generation call raises `"boom"`. -/
theorem generation_failure_fallback_witness :
    chat_with_agent (("Can I get a discount on a shop policy with no claims in 5 years?").toList) []
        ⟨true, none, [⟨("policy doc chunk").toList, []⟩], .error (("boom").toList), 0⟩ =
      .ok ⟨normalize_section_formatting (applyDecisionPatch
            (("Can I get a discount on a shop policy with no claims in 5 years?").toList)
            (general_response
              (("Can I get a discount on a shop policy with no claims in 5 years?").toList) [] 0 ++
             errNote (("boom").toList))), 1, 1⟩ :=
  generation_failure_fallback _ [] _ _ (by decide) rfl (by decide) rfl

/-! ## Preservation of the `Decision:` label through `_normalize_section_formatting`

The needle `Decision:` starts with `'D'`, a character that is not whitespace
and occurs in no other label and nowhere in the tails of the labels, so no
normalization pass can break an occurrence of it. -/

theorem subLabelGo_skip {hd : Char} (tl : Str) (s x : Str) (f : Nat)
    (hs : ∀ c ∈ s, (hd == c) = false ∧ isWs c = false) :
    subLabelGo (hd :: tl) f (s ++ x) = s ++ subLabelGo (hd :: tl) (f - s.length) x := by
  induction s generalizing f with
  | nil => simp
  | cons a s' ih =>
    obtain ⟨ha1, ha2⟩ := hs a (List.mem_cons_self a s')
    have hs' : ∀ c ∈ s', (hd == c) = false ∧ isWs c = false :=
      fun c hc => hs c (List.mem_cons_of_mem a hc)
    cases f with
    | zero => simp [subLabelGo]
    | succ g =>
      have hw : wsRunLen (a :: (s' ++ x)) = 0 := wsRunLen_cons_of_not_ws _ ha2
      have hcond : startsL (hd :: tl) ((a :: (s' ++ x)).drop (wsRunLen (a :: (s' ++ x)))) = false := by
        rw [hw]
        simp [startsL, ha1]
      calc subLabelGo (hd :: tl) (g + 1) ((a :: s') ++ x)
          = a :: subLabelGo (hd :: tl) g (s' ++ x) := by
            simp only [List.cons_append, subLabelGo, List.append_eq, hcond,
              Bool.false_eq_true, if_false]
        _ = a :: (s' ++ subLabelGo (hd :: tl) (g - s'.length) x) := by rw [ih g hs']
        _ = (a :: s') ++ subLabelGo (hd :: tl) ((g + 1) - (a :: s').length) x := by
            simp [Nat.succ_sub_succ]

theorem contains_subLabelGo_self : ∀ (f : Nat) (t : Str),
    containsSub DecisionLbl t = true →
    containsSub DecisionLbl (subLabelGo DecisionLbl f t) = true := by
  intro f
  induction f with
  | zero => intro t H; simpa [subLabelGo] using H
  | succ g ih =>
    intro t H
    cases t with
    | nil => exact absurd H (by decide)
    | cons c rest =>
      by_cases hm : startsL DecisionLbl ((c :: rest).drop (wsRunLen (c :: rest))) = true
      · have hout : subLabelGo DecisionLbl (g + 1) (c :: rest) =
            '\n' :: (DecisionLbl ++ subLabelGo DecisionLbl g
              ((c :: rest).drop (wsRunLen (c :: rest) + DecisionLbl.length))) := by
          simp only [subLabelGo, hm, if_true]
        rw [hout]
        exact containsSub_cons _ (containsSub_of_startsL (startsL_append _ _))
      · have hm' : startsL DecisionLbl ((c :: rest).drop (wsRunLen (c :: rest))) = false := by
          simpa using hm
        have hout : subLabelGo DecisionLbl (g + 1) (c :: rest) =
            c :: subLabelGo DecisionLbl g rest := by
          simp only [subLabelGo, hm', Bool.false_eq_true, if_false]
        rw [hout]
        simp only [containsSub, Bool.or_eq_true] at H
        rcases H with H | H
        · exfalso
          have hc : ('D' == c) = true := by
            have hD : DecisionLbl = 'D' :: ("ecision:").toList := rfl
            rw [hD] at H
            simp only [startsL, Bool.and_eq_true] at H
            exact H.1
          have hcd : c = 'D' := (beq_iff_eq.mp hc).symm
          have hw0 : wsRunLen (c :: rest) = 0 :=
            wsRunLen_cons_of_not_ws _ (by rw [hcd]; decide)
          rw [hw0, List.drop_zero] at hm'
          rw [H] at hm'
          exact Bool.true_eq_false.mp hm'
        · exact containsSub_cons _ (ih rest H)

theorem contains_subLabelGo_exp : ∀ (f : Nat) (t : Str),
    containsSub DecisionLbl t = true →
    containsSub DecisionLbl (subLabelGo ExplanationLbl f t) = true := by
  intro f
  induction f with
  | zero => intro t H; simpa [subLabelGo] using H
  | succ g ih =>
    intro t H
    cases t with
    | nil => exact absurd H (by decide)
    | cons c rest =>
      by_cases hd : startsL DecisionLbl (c :: rest) = true
      · -- a `Decision:` occurrence at the head is copied verbatim: no character
        -- of `Decision:` is whitespace or equals `'E'`
        have hdecomp := startsL_eq_append hd
        have hskip : subLabelGo ExplanationLbl (g + 1) (c :: rest) =
            DecisionLbl ++ subLabelGo ExplanationLbl ((g + 1) - DecisionLbl.length)
              ((c :: rest).drop DecisionLbl.length) := by
          conv_lhs => rw [hdecomp]
          exact subLabelGo_skip (("xplanation:").toList) DecisionLbl
            ((c :: rest).drop DecisionLbl.length) (g + 1) (by decide)
        rw [hskip]
        exact containsSub_of_startsL (startsL_append _ _)
      · have hd' : startsL DecisionLbl (c :: rest) = false := by simpa using hd
        have Hrest : containsSub DecisionLbl rest = true := by
          simpa [containsSub, hd'] using H
        by_cases hm : startsL ExplanationLbl ((c :: rest).drop (wsRunLen (c :: rest))) = true
        · have hout : subLabelGo ExplanationLbl (g + 1) (c :: rest) =
              '\n' :: (ExplanationLbl ++ subLabelGo ExplanationLbl g
                ((c :: rest).drop (wsRunLen (c :: rest) + ExplanationLbl.length))) := by
            simp only [subLabelGo, hm, if_true]
          rw [hout]
          -- strip the whitespace run and the matched label off the occurrence
          have hsplit : (c :: rest) =
              (c :: rest).take (wsRunLen (c :: rest)) ++
                (ExplanationLbl ++ (c :: rest).drop (wsRunLen (c :: rest) + ExplanationLbl.length)) := by
            conv_lhs => rw [← List.take_append_drop (wsRunLen (c :: rest)) (c :: rest)]
            congr 1
            have := startsL_eq_append hm
            rw [this]
            congr 1
            rw [List.drop_drop]
          have hD : DecisionLbl = 'D' :: ("ecision:").toList := rfl
          have Hdropped : containsSub DecisionLbl
              ((c :: rest).drop (wsRunLen (c :: rest) + ExplanationLbl.length)) = true := by
            have H1 := H
            rw [hsplit] at H1
            rw [hD] at H1 ⊢
            rw [containsSub_skip_block _ _
              (fun ch hch => by
                have := take_wsRun_ws (c :: rest) ch hch
                intro hcontra
                rw [← hcontra] at this
                exact absurd this (by decide))] at H1
            rw [containsSub_skip_block ExplanationLbl _
              (fun ch hch => by
                intro hcontra
                rw [← hcontra] at hch
                exact absurd hch (by decide))] at H1
            exact H1
          exact containsSub_cons _ (containsSub_append_left _ (ih _ Hdropped))
        · have hm' : startsL ExplanationLbl ((c :: rest).drop (wsRunLen (c :: rest))) = false := by
            simpa using hm
          have hout : subLabelGo ExplanationLbl (g + 1) (c :: rest) =
              c :: subLabelGo ExplanationLbl g rest := by
            simp only [subLabelGo, hm', Bool.false_eq_true, if_false]
          rw [hout]
          exact containsSub_cons _ (ih rest Hrest)

theorem matchLbl_cons_none {a : Char} (y : Str)
    (h1 : ('A' == a) = false) (h2 : ('D' == a) = false) (h3 : ('E' == a) = false) :
    matchLbl (a :: y) = none := by
  have hA : startsL AnswerLbl (a :: y) = false := by
    have hv : AnswerLbl = 'A' :: ("nswer:").toList := rfl
    rw [hv]
    simp [startsL, h1]
  have hDl : startsL DecisionLbl (a :: y) = false := by
    have hv : DecisionLbl = 'D' :: ("ecision:").toList := rfl
    rw [hv]
    simp [startsL, h2]
  have hE : startsL ExplanationLbl (a :: y) = false := by
    have hv : ExplanationLbl = 'E' :: ("xplanation:").toList := rfl
    rw [hv]
    simp [startsL, h3]
  simp [matchLbl, hA, hDl, hE]

theorem matchLbl_some {s lbl : Str} (h : matchLbl s = some lbl) :
    startsL lbl s = true ∧
      (lbl = AnswerLbl ∨ lbl = DecisionLbl ∨ lbl = ExplanationLbl) := by
  unfold matchLbl at h
  by_cases h1 : startsL AnswerLbl s = true
  · rw [if_pos h1] at h
    cases h
    exact ⟨h1, Or.inl rfl⟩
  · rw [if_neg h1] at h
    by_cases h2 : startsL DecisionLbl s = true
    · rw [if_pos h2] at h
      cases h
      exact ⟨h2, Or.inr (Or.inl rfl)⟩
    · rw [if_neg h2] at h
      by_cases h3 : startsL ExplanationLbl s = true
      · rw [if_pos h3] at h
        cases h
        exact ⟨h3, Or.inr (Or.inr rfl)⟩
      · rw [if_neg h3] at h
        cases h

theorem collapseGo_skip (s x : Str) (f : Nat)
    (hs : ∀ c ∈ s, ('A' == c) = false ∧ ('D' == c) = false ∧ ('E' == c) = false) :
    collapseGo f (s ++ x) = s ++ collapseGo (f - s.length) x := by
  induction s generalizing f with
  | nil => simp
  | cons a s' ih =>
    obtain ⟨ha1, ha2, ha3⟩ := hs a (List.mem_cons_self a s')
    have hs' : ∀ c ∈ s', ('A' == c) = false ∧ ('D' == c) = false ∧ ('E' == c) = false :=
      fun c hc => hs c (List.mem_cons_of_mem a hc)
    cases f with
    | zero => simp [collapseGo]
    | succ g =>
      have hnone : matchLbl (a :: (s' ++ x)) = none := matchLbl_cons_none _ ha1 ha2 ha3
      calc collapseGo (g + 1) ((a :: s') ++ x)
          = a :: collapseGo g (s' ++ x) := by
            simp only [List.cons_append, collapseGo, List.append_eq, hnone]
        _ = a :: (s' ++ collapseGo (g - s'.length) x) := by rw [ih g hs']
        _ = (a :: s') ++ collapseGo ((g + 1) - (a :: s').length) x := by
            simp [Nat.succ_sub_succ]

theorem contains_collapseGo : ∀ (f : Nat) (t : Str),
    containsSub DecisionLbl t = true →
    containsSub DecisionLbl (collapseGo f t) = true := by
  intro f
  induction f with
  | zero => intro t H; simpa [collapseGo] using H
  | succ g ih =>
    intro t H
    cases t with
    | nil => exact absurd H (by decide)
    | cons c rest =>
      by_cases hd : startsL DecisionLbl (c :: rest) = true
      · have hc : ('D' == c) = true := by
          have hD : DecisionLbl = 'D' :: ("ecision:").toList := rfl
          rw [hD] at hd
          simp only [startsL, Bool.and_eq_true] at hd
          exact hd.1
        have hcd : c = 'D' := (beq_iff_eq.mp hc).symm
        have hA : startsL AnswerLbl (c :: rest) = false := by
          have hv : AnswerLbl = 'A' :: ("nswer:").toList := rfl
          rw [hv, hcd]
          simp [startsL]
        have hmatch : matchLbl (c :: rest) = some DecisionLbl := by
          simp [matchLbl, hA, hd]
        by_cases hw : 0 < wsRunLen ((c :: rest).drop DecisionLbl.length)
        · have hout : collapseGo (g + 1) (c :: rest) =
              DecisionLbl ++ ' ' :: collapseGo g
                (((c :: rest).drop DecisionLbl.length).drop
                  (wsRunLen ((c :: rest).drop DecisionLbl.length))) := by
            simp only [collapseGo, hmatch]
            rw [if_pos hw]
          rw [hout]
          exact containsSub_of_startsL (startsL_append _ _)
        · have hout : collapseGo (g + 1) (c :: rest) = c :: collapseGo g rest := by
            simp only [collapseGo, hmatch]
            rw [if_neg hw]
          rw [hout]
          have hdecomp := startsL_eq_append hd
          have htail : rest = ("ecision:").toList ++ (c :: rest).drop DecisionLbl.length := by
            have hD : DecisionLbl = 'D' :: ("ecision:").toList := rfl
            rw [hD] at hdecomp
            simpa using congrArg List.tail hdecomp
          rw [hcd, htail,
            collapseGo_skip (("ecision:").toList) _ g (by decide)]
          exact containsSub_of_startsL (startsL_append DecisionLbl _)
      · have hd' : startsL DecisionLbl (c :: rest) = false := by simpa using hd
        have Hrest : containsSub DecisionLbl rest = true := by
          simpa [containsSub, hd'] using H
        cases hmatch : matchLbl (c :: rest) with
        | none =>
          have hout : collapseGo (g + 1) (c :: rest) = c :: collapseGo g rest := by
            simp only [collapseGo, hmatch]
          rw [hout]
          exact containsSub_cons _ (ih rest Hrest)
        | some lbl =>
          obtain ⟨hstarts, hcases⟩ := matchLbl_some hmatch
          have hnotD : ∀ ch ∈ lbl, 'D' ≠ ch := by
            rcases hcases with rfl | rfl | rfl
            · decide
            · rw [hstarts] at hd'
              exact absurd hd' (by decide)
            · decide
          by_cases hw : 0 < wsRunLen ((c :: rest).drop lbl.length)
          · have hout : collapseGo (g + 1) (c :: rest) =
                lbl ++ ' ' :: collapseGo g
                  (((c :: rest).drop lbl.length).drop
                    (wsRunLen ((c :: rest).drop lbl.length))) := by
              simp only [collapseGo, hmatch]
              rw [if_pos hw]
            rw [hout]
            have hD : DecisionLbl = 'D' :: ("ecision:").toList := rfl
            have Hrem : containsSub DecisionLbl ((c :: rest).drop lbl.length) = true := by
              have H1 := H
              rw [startsL_eq_append hstarts, hD] at H1
              rw [containsSub_skip_block lbl _ (by
                intro ch hch
                exact hnotD ch hch)] at H1
              rw [hD]
              exact H1
            have Hdropped : containsSub DecisionLbl
                (((c :: rest).drop lbl.length).drop
                  (wsRunLen ((c :: rest).drop lbl.length))) = true := by
              have H1 := Hrem
              rw [← List.take_append_drop
                (wsRunLen ((c :: rest).drop lbl.length))
                ((c :: rest).drop lbl.length), hD] at H1
              rw [containsSub_skip_block _ _ (fun ch hch => by
                have := take_wsRun_ws ((c :: rest).drop lbl.length) ch hch
                intro hcontra
                rw [← hcontra] at this
                exact absurd this (by decide))] at H1
              rw [hD]
              exact H1
            exact containsSub_append_left _ (containsSub_cons _ (ih _ Hdropped))
          · have hout : collapseGo (g + 1) (c :: rest) = c :: collapseGo g rest := by
              simp only [collapseGo, hmatch]
              rw [if_neg hw]
            rw [hout]
            exact containsSub_cons _ (ih rest Hrest)

theorem contains_dropWhileWs : ∀ (t : Str), containsSub DecisionLbl t = true →
    containsSub DecisionLbl (t.dropWhile (fun c => isWs c)) = true := by
  intro t
  induction t with
  | nil => intro H; exact absurd H (by decide)
  | cons c rest ih =>
    intro H
    by_cases hws : isWs c = true
    · have hnot : startsL DecisionLbl (c :: rest) = false := by
        have hD : DecisionLbl = 'D' :: ("ecision:").toList := rfl
        rw [hD]
        simp only [startsL]
        have : ('D' == c) = false := by
          by_contra hcon
          have : c = 'D' := (beq_iff_eq.mp (by simpa using hcon)).symm
          rw [this] at hws
          exact absurd hws (by decide)
        simp [this]
      have Hrest : containsSub DecisionLbl rest = true := by
        simpa [containsSub, hnot] using H
      simpa [List.dropWhile_cons, hws] using ih Hrest
    · have hws' : isWs c = false := by simpa using hws
      simpa [List.dropWhile_cons, hws'] using H

theorem startsL_dropTrail : ∀ (s t : Str), (∀ c ∈ s, isWs c = false) →
    startsL s t = true → startsL s (dropTrail t) = true := by
  intro s
  induction s with
  | nil => intro t _ _; rfl
  | cons a s' ih =>
    intro t hs H
    cases t with
    | nil => exact absurd H (by simp [startsL])
    | cons b t' =>
      simp only [startsL, Bool.and_eq_true] at H
      obtain ⟨hab, H2⟩ := H
      have hb : isWs b = false := by
        have ha : isWs a = false := hs a (List.mem_cons_self a s')
        rwa [beq_iff_eq.mp hab] at ha
      have hout : dropTrail (b :: t') = b :: dropTrail t' := by
        simp [dropTrail, hb]
      rw [hout]
      simp only [startsL, Bool.and_eq_true]
      exact ⟨hab, ih t' (fun c hc => hs c (List.mem_cons_of_mem a hc)) H2⟩

theorem contains_dropTrail : ∀ (t : Str), containsSub DecisionLbl t = true →
    containsSub DecisionLbl (dropTrail t) = true := by
  intro t
  induction t with
  | nil => intro H; exact absurd H (by decide)
  | cons c rest ih =>
    intro H
    simp only [containsSub, Bool.or_eq_true] at H
    rcases H with H | H
    · exact containsSub_of_startsL
        (startsL_dropTrail DecisionLbl (c :: rest) (by decide) H)
    · have ih' := ih H
      by_cases hcond : ((dropTrail rest).isEmpty && isWs c) = true
      · exfalso
        have hempty : dropTrail rest = [] := by
          simp only [Bool.and_eq_true, List.isEmpty_iff] at hcond
          exact hcond.1
        rw [hempty] at ih'
        exact absurd ih' (by decide)
      · have hout : dropTrail (c :: rest) = c :: dropTrail rest := by
          simp only [dropTrail]
          rw [if_neg (by simpa using hcond)]
        rw [hout]
        exact containsSub_cons _ ih'

/-- Chained preservation: `_normalize_section_formatting` never destroys a
`Decision:` occurrence. -/
theorem contains_decision_normalize (t : Str)
    (H : containsSub DecisionLbl t = true) :
    containsSub DecisionLbl (normalize_section_formatting t) = true := by
  unfold normalize_section_formatting subLabel collapseAfterLabels stripStr
  exact contains_dropTrail _ (contains_dropWhileWs _ (contains_collapseGo _ _
    (contains_subLabelGo_exp _ _ (contains_subLabelGo_self _ _ H))))

/-! ## C3 — labels after post-processing on the generation path -/

/-- C3 counterexample: for the substantive query "Can I get a discount on a
shop policy with no claims in 5 years?" and a generation result of
`"Decision: Accept"`, the post-processed reply is `"Decision: Accept"`: the
`Decision:` label being present, no patch fires, and the final response
contains neither `Answer:` nor `Explanation:` — refuting "contains all three
labels" for every generation text. -/
theorem generation_path_labels_cex :
    chat_with_agent (("Can I get a discount on a shop policy with no claims in 5 years?").toList) []
        ⟨true, none, [⟨("policy doc chunk").toList, []⟩], .ok (("Decision: Accept").toList), 0⟩ =
      .ok ⟨("Decision: Accept").toList, 1, 1⟩ ∧
    containsSub AnswerLbl (("Decision: Accept").toList) = false ∧
    containsSub ExplanationLbl (("Decision: Accept").toList) = false := by
  refine ⟨?_, by decide, by decide⟩
  rw [chat_eq_generation [] (by decide) rfl (by decide)]
  exact congrArg Except.ok (by decide)

/-- C3 (amended): on the generation path, for a query classified neither
small-talk nor out-of-scope nor personal and for every text the generation
capability may return, the post-processed response contains the `Decision:`
label (appended as `Decision: Need Clarification` when missing, and never
destroyed by formatting normalization); the `Answer:` and `Explanation:`
labels are not guaranteed. -/
theorem generation_path_decision_label (q : Str) (hist : List (Str × Str))
    (env : ChatEnv)
    (hst : is_small_talk q = false) (hoos : is_out_of_scope q = false)
    (hp : is_personal q = false) (hkey : env.keyOk = true)
    (hweak : weakExitCond q env = false) :
    ∃ out, chat_with_agent q hist env = .ok out ∧ out.generationCalls = 1 ∧
      containsSub DecisionLbl out.response = true := by
  have hsc : shortCircuitCond q = false := by simp [shortCircuitCond, hst, hp]
  refine ⟨_, chat_eq_generation hist hsc hkey hweak, rfl, ?_⟩
  apply contains_decision_normalize
  unfold applyDecisionPatch
  by_cases hD : containsSub DecisionLbl (genRawResponse q hist env) = true
  · simp only [hD, Bool.not_true, Bool.false_and, Bool.false_eq_true, if_false]
  · have hD' : containsSub DecisionLbl (genRawResponse q hist env) = false := by
      simpa using hD
    rw [if_pos (by simp [hD', hst, hoos, hp])]
    exact containsSub_append_left _ (by decide)

/-- C3 witness: a substantive query whose generation text carries no label at
all still comes back with a `Decision:` line. -/
theorem generation_path_decision_label_witness :
    ∃ out, chat_with_agent
        (("Can I get a discount on a shop policy with no claims in 5 years?").toList) []
        ⟨true, none, [⟨("policy doc chunk").toList, []⟩],
         .ok (("happy to help with that").toList), 0⟩ = .ok out ∧
      out.generationCalls = 1 ∧ containsSub DecisionLbl out.response = true :=
  generation_path_decision_label _ [] _ (by decide) (by decide) (by decide) rfl (by decide)

/-! ## C4 / C5 / C9 — index builder/loader -/

/-- Whichever return path succeeds leaves the returned index in the
module-level cache. -/
theorem build_cache_of_ok (env : IdxEnv) (cache : Option Index)
    (c p : List Document) (idx : Index)
    (h : (build_or_load_index env cache c p).result = .ok idx) :
    (build_or_load_index env cache c p).cache = some idx := by
  rcases cache with _ | vs
  · rcases hk : get_api_key env with m | k
    · unfold build_or_load_index at h
      rw [hk] at h
      simp at h
    · unfold build_or_load_index at h ⊢
      rw [hk] at h ⊢
      by_cases h1 : env.preferFaissFlag = true <;>
      by_cases h2 : env.chromaPersisted = true <;>
      by_cases h3 : env.chromaLoadOk = true <;>
      by_cases h4 : env.chromaCreateOk = true <;>
      by_cases h5 : c = [] <;>
      simp_all
  · simp_all [build_or_load_index]

/-- C4 counterexample: a persisted index produced by the FAISS fallback
backend (at `vector_db`) is never consulted: with no Chroma state at
`chroma_db`, a first call in a fresh process rebuilds from scratch and
re-invokes the embedding capability, although a persisted index from a
successful earlier run exists. -/
theorem persisted_faiss_index_not_loaded_cex :
    (⟨some (("k").toList), none, false, false, true, true, true⟩ : IdxEnv).faissPersisted = true ∧
    (build_or_load_index ⟨some (("k").toList), none, false, false, true, true, true⟩ none
        [⟨("chunk one of the corpus").toList, []⟩] []).embedded = true ∧
    (build_or_load_index ⟨some (("k").toList), none, false, false, true, true, true⟩ none
        [⟨("chunk one of the corpus").toList, []⟩] []).result =
      .ok (.chromaCreated [⟨("chunk one of the corpus").toList, []⟩]) :=
  ⟨rfl, rfl, rfl⟩

/-- C4 (amended): when a persisted index exists at the preferred (Chroma)
backend's configured location, the FAISS-fallback flag is unset, the
credential resolves, and the load succeeds, a first call loads and returns the
persisted index and the embedding capability is not invoked on any document;
an index persisted by the FAISS fallback backend (at `vector_db`) is never
loaded — such a run rebuilds and re-embeds. -/
theorem persisted_chroma_index_loaded (env : IdxEnv) (chat policy : List Document)
    (k : Str) (hkey : get_api_key env = .ok k) (hpref : env.preferFaissFlag = false)
    (hpers : env.chromaPersisted = true) (hload : env.chromaLoadOk = true) :
    build_or_load_index env none chat policy =
      ⟨.ok .chromaLoaded, some .chromaLoaded, false, true⟩ := by
  unfold build_or_load_index
  rw [hkey]
  simp [hpref, hpers, hload]

/-- C4 witness: a concrete environment with persisted Chroma state. -/
theorem persisted_chroma_index_loaded_witness :
    build_or_load_index ⟨some (("k").toList), none, false, true, true, true, false⟩ none
        [⟨("chunk one of the corpus").toList, []⟩] [] =
      ⟨.ok .chromaLoaded, some .chromaLoaded, false, true⟩ :=
  persisted_chroma_index_loaded _ _ _ (("k").toList) rfl rfl rfl rfl

/-- C5: once `build_or_load_index` has returned successfully, every subsequent
call — whatever the environment and the chunk arguments — returns the
identical cached index without invoking the embedding capability and without
reading persisted state. -/
theorem build_or_load_index_idempotent (env env' : IdxEnv) (cache : Option Index)
    (c p c' p' : List Document) (idx : Index)
    (h : (build_or_load_index env cache c p).result = .ok idx) :
    build_or_load_index env' (build_or_load_index env cache c p).cache c' p' =
      ⟨.ok idx, some idx, false, false⟩ := by
  rw [build_cache_of_ok env cache c p idx h]
  rfl

/-- C5 witness: after a successful load, a second call with different
arguments — and even with the credential gone — returns the same instance. -/
theorem build_or_load_index_idempotent_witness :
    build_or_load_index ⟨none, none, true, false, false, false, false⟩
        (build_or_load_index ⟨some (("k").toList), none, false, true, true, true, false⟩ none
          [⟨("chunk one of the corpus").toList, []⟩] []).cache [] [] =
      ⟨.ok .chromaLoaded, some .chromaLoaded, false, false⟩ :=
  build_or_load_index_idempotent _ _ none _ _ [] [] .chromaLoaded rfl

/-- C9: with no credential in the environment nor in the Streamlit secrets, a
first call raises the fatal configuration error before any embedding
computation and before any persisted-state access, and the error surfaces to
the caller; a call served from the in-process cache returns the cached index
without any credential check. -/
theorem missing_credential_fail_fast (env : IdxEnv) (c p : List Document)
    (h1 : env.envKey = none) (h2 : env.secretsKey = none) :
    (build_or_load_index env none c p = ⟨.error keyMissingMsg, none, false, false⟩) ∧
    (∀ i : Index, build_or_load_index env (some i) c p = ⟨.ok i, some i, false, false⟩) := by
  constructor
  · have hk : get_api_key env = .error keyMissingMsg := by
      unfold get_api_key
      rw [h1, h2]
    unfold build_or_load_index
    rw [hk]
  · intro i
    rfl

/-- C9 witness: a concrete credential-less environment, with and without a
cached index. -/
theorem missing_credential_fail_fast_witness :
    (build_or_load_index ⟨none, none, false, true, true, true, false⟩ none [] [] =
      ⟨.error keyMissingMsg, none, false, false⟩) ∧
    (build_or_load_index ⟨none, none, false, true, true, true, false⟩ (some .chromaLoaded) [] [] =
      ⟨.ok .chromaLoaded, some .chromaLoaded, false, false⟩) :=
  ⟨(missing_credential_fail_fast _ [] [] rfl rfl).1,
   (missing_credential_fail_fast _ [] [] rfl rfl).2 .chromaLoaded⟩

/-! ## C7 — chunk length floor and deduplication invariants -/

theorem dedupeGo_sublist (hash : Str → Str) :
    ∀ (docs : List Document) (seen : List Str),
      List.Sublist (dedupeGo hash docs seen) docs := by
  intro docs
  induction docs with
  | nil => intro seen; simp [dedupeGo]
  | cons x rest ih =>
    intro seen
    by_cases hm : hash (normalizeText x.page_content) ∈ seen
    · simpa [dedupeGo, hm] using List.Sublist.cons x (ih seen)
    · simpa [dedupeGo, hm] using List.Sublist.cons₂ x (ih _)

theorem mem_dedupeGo_not_seen (hash : Str → Str) :
    ∀ (docs : List Document) (seen : List Str) (d : Document),
      d ∈ dedupeGo hash docs seen →
      hash (normalizeText d.page_content) ∉ seen := by
  intro docs
  induction docs with
  | nil => intro seen d hd; simp [dedupeGo] at hd
  | cons x rest ih =>
    intro seen d hd
    by_cases hm : hash (normalizeText x.page_content) ∈ seen
    · rw [show dedupeGo hash (x :: rest) seen = dedupeGo hash rest seen by
        simp [dedupeGo, hm]] at hd
      exact ih seen d hd
    · rw [show dedupeGo hash (x :: rest) seen =
          x :: dedupeGo hash rest (hash (normalizeText x.page_content) :: seen) by
        simp [dedupeGo, hm]] at hd
      rcases List.mem_cons.mp hd with rfl | hd
      · exact hm
      · intro hcon
        exact ih _ d hd (List.mem_cons_of_mem _ hcon)

theorem dedupeGo_pairwise (hash : Str → Str) :
    ∀ (docs : List Document) (seen : List Str),
      (dedupeGo hash docs seen).Pairwise
        (fun a b => hash (normalizeText a.page_content) ≠
          hash (normalizeText b.page_content)) := by
  intro docs
  induction docs with
  | nil => intro seen; simp [dedupeGo]
  | cons x rest ih =>
    intro seen
    by_cases hm : hash (normalizeText x.page_content) ∈ seen
    · simpa [dedupeGo, hm] using ih seen
    · rw [show dedupeGo hash (x :: rest) seen =
          x :: dedupeGo hash rest (hash (normalizeText x.page_content) :: seen) by
        simp [dedupeGo, hm]]
      refine List.Pairwise.cons ?_ (ih _)
      intro b hb
      have := mem_dedupeGo_not_seen hash rest _ b hb
      intro hcon
      exact this (by rw [← hcon]; exact List.mem_cons_self _ _)

theorem mem_dedupeGo_find (hash : Str → Str) :
    ∀ (docs : List Document) (seen : List Str) (d : Document),
      d ∈ dedupeGo hash docs seen →
      docs.find? (fun x => hash (normalizeText x.page_content) ==
        hash (normalizeText d.page_content)) = some d := by
  intro docs
  induction docs with
  | nil => intro seen d hd; simp [dedupeGo] at hd
  | cons x rest ih =>
    intro seen d hd
    by_cases hm : hash (normalizeText x.page_content) ∈ seen
    · rw [show dedupeGo hash (x :: rest) seen = dedupeGo hash rest seen by
        simp [dedupeGo, hm]] at hd
      have hnotin := mem_dedupeGo_not_seen hash rest seen d hd
      have hne : (hash (normalizeText x.page_content) ==
          hash (normalizeText d.page_content)) = false := by
        rw [beq_eq_false_iff_ne]
        intro hcon
        exact hnotin (hcon ▸ hm)
      rw [List.find?_cons_of_neg _ (by simp [hne]), ih seen d hd]
    · rw [show dedupeGo hash (x :: rest) seen =
          x :: dedupeGo hash rest (hash (normalizeText x.page_content) :: seen) by
        simp [dedupeGo, hm]] at hd
      rcases List.mem_cons.mp hd with rfl | hd
      · exact List.find?_cons_of_pos _ (by simp)
      · have hnotin := mem_dedupeGo_not_seen hash rest _ d hd
        have hne : (hash (normalizeText x.page_content) ==
            hash (normalizeText d.page_content)) = false := by
          rw [beq_eq_false_iff_ne]
          intro hcon
          exact hnotin (by rw [← hcon]; exact List.mem_cons_self _ _)
        rw [List.find?_cons_of_neg _ (by simp [hne]), ih _ d hd]

theorem dedupeGo_covers (hash : Str → Str) :
    ∀ (docs : List Document) (seen : List Str) (d : Document), d ∈ docs →
      hash (normalizeText d.page_content) ∈ seen ∨
      ∃ d', d' ∈ dedupeGo hash docs seen ∧
        hash (normalizeText d'.page_content) = hash (normalizeText d.page_content) := by
  intro docs
  induction docs with
  | nil => intro seen d hd; simp at hd
  | cons x rest ih =>
    intro seen d hd
    by_cases hm : hash (normalizeText x.page_content) ∈ seen
    · rw [show dedupeGo hash (x :: rest) seen = dedupeGo hash rest seen by
        simp [dedupeGo, hm]]
      rcases List.mem_cons.mp hd with rfl | hd
      · exact Or.inl hm
      · exact ih seen d hd
    · rw [show dedupeGo hash (x :: rest) seen =
          x :: dedupeGo hash rest (hash (normalizeText x.page_content) :: seen) by
        simp [dedupeGo, hm]]
      rcases List.mem_cons.mp hd with rfl | hd
      · exact Or.inr ⟨d, List.mem_cons_self _ _, rfl⟩
      · rcases ih (hash (normalizeText x.page_content) :: seen) d hd with hseen | ⟨d', hd', heq⟩
        · rcases List.mem_cons.mp hseen with heq | hseen
          · exact Or.inr ⟨x, List.mem_cons_self _ _, heq.symm⟩
          · exact Or.inl hseen
        · exact Or.inr ⟨d', List.mem_cons_of_mem _ hd', heq⟩

theorem mem_chunk_text_length {split : Str → List Str} {text source : Str}
    {d : Document} (hd : d ∈ chunk_text split text source) :
    MIN_CHUNK_CHARS ≤ d.page_content.length := by
  simp only [chunk_text, List.mem_map, List.mem_filter, decide_eq_true_eq] at hd
  obtain ⟨chunk, ⟨_, hlen⟩, rfl⟩ := hd
  exact hlen

/-- C7: every chunk returned by `load_chat_data` / `load_policy_docs` has
content of at least `MIN_CHUNK_CHARS` characters; deduplication — for any
digest function and any batch — yields pairwise-distinct normalized-content
hashes, preserves insertion order (the output is a sublist of the input),
keeps exactly the first occurrence of each hash, and drops only later
duplicates (every input hash is still represented). -/
theorem chunk_dedupe_invariants (split : Str → List Str) (hash : Str → Str)
    (rows : List ChatRow) (files : List (Str × Str)) (docs : List Document) :
    (∀ d ∈ load_chat_data split hash rows, MIN_CHUNK_CHARS ≤ d.page_content.length) ∧
    (∀ d ∈ load_policy_docs split hash files, MIN_CHUNK_CHARS ≤ d.page_content.length) ∧
    (dedupe_documents hash docs).Pairwise
      (fun a b => hash (normalizeText a.page_content) ≠
        hash (normalizeText b.page_content)) ∧
    List.Sublist (dedupe_documents hash docs) docs ∧
    (∀ d ∈ dedupe_documents hash docs,
      docs.find? (fun x => hash (normalizeText x.page_content) ==
        hash (normalizeText d.page_content)) = some d) ∧
    (∀ d ∈ docs, ∃ d', d' ∈ dedupe_documents hash docs ∧
      hash (normalizeText d'.page_content) = hash (normalizeText d.page_content)) := by
  refine ⟨?_, ?_, dedupeGo_pairwise hash docs [], dedupeGo_sublist hash docs [],
    fun d hd => mem_dedupeGo_find hash docs [] d hd, fun d hd => ?_⟩
  · intro d hd
    have hd' : d ∈ rows.flatMap (chatRowDocs split) :=
      (dedupeGo_sublist hash _ []).subset hd
    rw [List.mem_flatMap] at hd'
    obtain ⟨row, _, hdr⟩ := hd'
    rcases htr : row.transcript with _ | t
    · simp [chatRowDocs, htr] at hdr
    · simp only [chatRowDocs, htr, List.mem_map] at hdr
      obtain ⟨d₀, hmem, rfl⟩ := hdr
      show MIN_CHUNK_CHARS ≤ d₀.page_content.length
      exact mem_chunk_text_length hmem
  · intro d hd
    have hd' : d ∈ files.flatMap (fun f =>
        if endsL ((".pdf").toList) f.1 || endsL ((".docx").toList) f.1 then
          chunk_text split f.2 f.1
        else []) :=
      (dedupeGo_sublist hash _ []).subset hd
    rw [List.mem_flatMap] at hd'
    obtain ⟨f, _, hdf⟩ := hd'
    by_cases hext : (endsL ((".pdf").toList) f.1 || endsL ((".docx").toList) f.1) = true
    · rw [if_pos hext] at hdf
      exact mem_chunk_text_length hdf
    · rw [if_neg hext] at hdf
      simp at hdf
  · rcases dedupeGo_covers hash docs [] d hd with hseen | h
    · simp at hseen
    · exact h

/-- C7 witness: a `.pdf` file whose extracted text forms one 80-character
chunk, and a batch where a later whitespace/case variant of an earlier chunk
is dropped while its hash stays represented by the first occurrence. -/
theorem chunk_dedupe_invariants_witness :
    MIN_CHUNK_CHARS ≤
      (⟨("abcdefghij0123456789abcdefghij0123456789abcdefghij0123456789abcdefghij0123456789").toList,
        [(("source").toList, ("doc.pdf").toList)]⟩ : Document).page_content.length ∧
    (∃ d', d' ∈ dedupe_documents (fun s => s)
        [⟨("Alpha  Risk").toList, []⟩, ⟨(" alpha risk ").toList, []⟩] ∧
      normalizeText d'.page_content = normalizeText ((" alpha risk ").toList)) := by
  constructor
  · exact (chunk_dedupe_invariants (fun t => [t]) (fun s => s) []
      [((("doc.pdf").toList),
        ("abcdefghij0123456789abcdefghij0123456789abcdefghij0123456789abcdefghij0123456789").toList)]
      []).2.1 _ (by decide)
  · exact (chunk_dedupe_invariants (fun t => [t]) (fun s => s) [] []
      [⟨("Alpha  Risk").toList, []⟩, ⟨(" alpha risk ").toList, []⟩]).2.2.2.2.2
      ⟨(" alpha risk ").toList, []⟩ (by decide)

end AgentVerse
